import Mathlib

/-!
Shallow embedding of `pkg/operation/shootsecrets/secrets_manager.go`
(package `shootsecrets` of the gardener repository).

The Go code is sequential and single-threaded, so methods that mutate the
receiver become Lean functions from the manager state to a new manager
state; a Go `error` return becomes an `Option String` (`none` = nil error)
returned alongside the possibly-updated state, so that partial mutation
before an error is preserved, exactly as with a Go pointer receiver.
Collaborator calls that the Go code dispatches dynamically
(`secrets.ConfigInterface`, the infodata unmarshalling registry, the
kubernetes client) are modelled as explicit data / function parameters.
-/

namespace Shootsecrets

/-- Outcome of running a Go function that may dereference a nil function
value: either the call panics, or it returns a value. -/
inductive GoResult (α : Type) where
  | panics : GoResult α
  | returns : α → GoResult α
deriving DecidableEq

/-- Decoded info data (`infodata.InfoData`): opaque credential material
together with the outcome of marshalling it to its encoded form
(`Marshal`) and its type version tag. -/
structure InfoData where
  typeVersion : String
  marshalResult : Except String String

/-- Payload of a materialized secret (`secrets.DataInterface.SecretData()`):
an opaque key-value byte map, modelled as an association list. -/
abbrev SecretData : Type := List (String × String)

/-- A credential configuration (`secrets.ConfigInterface`): a name plus the
(deterministic) outcomes of its three collaborator methods
`GenerateInfoData`, `Generate` (fresh synthesis) and
`GenerateFromInfoData` (reconstruction from a decoded record). -/
structure SecretConfig where
  name : String
  generateInfoData : Except String InfoData
  generate : Except String SecretData
  generateFromInfoData : InfoData → Except String SecretData

/-- One entry of the encoded record store
(`gardencorev1alpha1.GardenerResourceData`): name, type tag and the raw
encoded payload. -/
structure GardenerResourceData where
  name : String
  type : String
  data : String
deriving DecidableEq

/-- The encoded record store (`GardenerResourceDataList`): an ordered list
of named encoded records. -/
abbrev GardenerResourceDataList : Type := List GardenerResourceData

/-- Modelled from the spec: `GardenerResourceDataList.Get` is not under
src/ (it lives in `pkg/apis/core/v1alpha1/helper`); the spec describes the
Encoded Record Store as "an ordered collection of named encoded credential
records, supporting get-by-name". Returns the first record with the given
name, or `none`. -/
def GardenerResourceDataList.get (l : GardenerResourceDataList) (name : String) :
    Option GardenerResourceData :=
  match l with
  | [] => none
  | rd :: rest =>
      if rd.name == name then some rd else GardenerResourceDataList.get rest name

/-- Modelled from the spec: the store's upsert-by-name (`Upsert` of
`GardenerResourceDataList`, not under src/) — "insert if absent, otherwise
no-op or explicit overwrite"; the overwrite replaces the first record
carrying the same name in place, an absent name is appended. -/
def GardenerResourceDataList.upsert (l : GardenerResourceDataList)
    (entry : GardenerResourceData) : GardenerResourceDataList :=
  if (GardenerResourceDataList.get l entry.name).isSome then
    List.map (fun rd => if rd.name == entry.name then entry else rd) l
  else
    l ++ [entry]

/-- Modelled from the spec: `infodata.UpsertInfoData` is not under src/;
it encodes the info data (`Marshal`, which may fail — the spec's
`EncodingError`) and upserts the resulting record into the store under
the given name. -/
def UpsertInfoData (l : GardenerResourceDataList) (name : String)
    (d : InfoData) : Except String GardenerResourceDataList :=
  match d.marshalResult with
  | Except.error e => Except.error e
  | Except.ok raw =>
      Except.ok (GardenerResourceDataList.upsert l ⟨name, d.typeVersion, raw⟩)

/-- Modelled from the spec: `infodata.GetInfoData` is not under src/; it
looks the name up in the store and decodes the raw record through the
infodata registry (`um`), which may fail — the spec's `RecordLookupError`.
An absent name yields `Except.ok none` (Go returns `nil, nil`). -/
def GetInfoData (um : String → Except String InfoData)
    (l : GardenerResourceDataList) (name : String) :
    Except String (Option InfoData) :=
  match GardenerResourceDataList.get l name with
  | none => Except.ok none
  | some rd =>
      match um rd.data with
      | Except.error e => Except.error e
      | Except.ok d => Except.ok (some d)

/-- A materialized runtime secret object (`corev1.Secret`): name,
namespace, type and opaque key-value payload. -/
structure Secret where
  name : String
  Namespace : String
  type : String
  data : SecretData
deriving DecidableEq

/-- The map of certificate authorities handed to the config set provider;
opaque to the engine (only passed through), modelled as an association
list from authority name to opaque material. -/
abbrev CAMap : Type := List (String × String)

/-- Go map lookup on an association list: the first binding wins. -/
def mapFind (m : List (String × Secret)) (k : String) : Option Secret :=
  match m with
  | [] => none
  | p :: rest => if p.fst == k then some p.snd else mapFind rest k

/-- Go map insertion `m[k] = v` on an association list: overwrite the
binding of `k` in place if present, append otherwise. -/
def mapInsert (m : List (String × Secret)) (k : String) (v : Secret) :
    List (String × Secret) :=
  if (mapFind m k).isSome then
    List.map (fun p => if p.fst == k then (k, v) else p) m
  else
    m ++ [(k, v)]

/-- The kubernetes runtime client (`client.Client`), restricted to the one
operation the engine uses, `Create`. `createFails` says, per secret name,
whether the API server rejects the creation (the spec's
`PersistenceError`); `attempted` records every creation attempt in order;
`created` records the successfully created objects. -/
structure K8sClient where
  createFails : String → Option String
  attempted : List Secret
  created : List Secret

/-- `k8sClient.Create(ctx, secret)`: always records the attempt; on
success also records the created object, otherwise reports the error. -/
def K8sClient.create (cl : K8sClient) (sec : Secret) : K8sClient × Option String :=
  match cl.createFails sec.name with
  | some e => ({ cl with attempted := cl.attempted ++ [sec] }, some e)
  | none =>
      ({ cl with
          attempted := cl.attempted ++ [sec]
          created := cl.created ++ [sec] }, none)

/-- The type of the pluggable config set provider
(`SecretConfigGeneratorFunc`). -/
abbrev SecretConfigGeneratorFunc : Type :=
  CAMap → Except String (List SecretConfig)

/-- The engine state (`SecretsManager`): the provider function (an
`Option`, since the Go field may hold a nil function), the certificate
authority cache, the existing runtime object cache, the encoded record
store, the unused static token slot and the deployed object map. -/
structure SecretsManager where
  secretConfigGenerator : Option SecretConfigGeneratorFunc
  certificateAuthorities : CAMap
  existingSecrets : List (String × Secret)
  GardenerResourceDataList : GardenerResourceDataList
  StaticToken : Option String
  DeployedSecrets : List (String × Secret)

/-- `NewSecretsManager`: fresh engine with the given store and provider,
empty caches and an empty deployed object map. -/
def NewSecretsManager (gardenerResourceDataList : GardenerResourceDataList)
    (secretConfigGenerator : Option SecretConfigGeneratorFunc) : SecretsManager :=
  { secretConfigGenerator := secretConfigGenerator
    certificateAuthorities := []
    existingSecrets := []
    GardenerResourceDataList := gardenerResourceDataList
    StaticToken := none
    DeployedSecrets := [] }

/-- `WithExistingSecrets`: installs the existing runtime object cache. -/
def WithExistingSecrets (s : SecretsManager)
    (existingSecrets : List (String × Secret)) : SecretsManager :=
  { s with existingSecrets := existingSecrets }

/-- `WithCertificateAuthorities`: installs the certificate authority
cache. -/
def WithCertificateAuthorities (s : SecretsManager) (cas : CAMap) : SecretsManager :=
  { s with certificateAuthorities := cas }

/-- `generateInfoDataAndUpdateResourceList`: skip when the store already
has a record under the config's name; otherwise synthesize fresh info
data and upsert its encoded form into the store. The state is returned
unchanged on the skip path and on every error path. -/
def generateInfoDataAndUpdateResourceList (s : SecretsManager)
    (secretConfig : SecretConfig) : SecretsManager × Option String :=
  if (GardenerResourceDataList.get s.GardenerResourceDataList secretConfig.name).isSome then
    (s, none)
  else
    match secretConfig.generateInfoData with
    | Except.error e => (s, some e)
    | Except.ok d =>
        match UpsertInfoData s.GardenerResourceDataList secretConfig.name d with
        | Except.error e => (s, some e)
        | Except.ok l => ({ s with GardenerResourceDataList := l }, none)

/-- The `for _, config := range secretConfigs` loop of `Generate`: process
the configurations in order, halting on the first error; the state
reached so far is kept (the Go receiver is a pointer, mutations persist). -/
def generateLoop (s : SecretsManager) :
    List SecretConfig → SecretsManager × Option String
  | [] => (s, none)
  | c :: rest =>
      match generateInfoDataAndUpdateResourceList s c with
      | (s₁, some e) => (s₁, some e)
      | (s₁, none) => generateLoop s₁ rest

/-- `Generate`: call the provider on the authority cache (a nil provider
function panics — this call is not guarded, unlike in `Deploy`), then
ensure an encoded record exists for every configuration in order. -/
def Generate (s : SecretsManager) : GoResult (SecretsManager × Option String) :=
  match s.secretConfigGenerator with
  | none => GoResult.panics
  | some f =>
      GoResult.returns
        (match f s.certificateAuthorities with
         | Except.error e => (s, some e)
         | Except.ok secretConfigs => generateLoop s secretConfigs)

/-- `getInfoDataAndGenerateSecret`: look the config's name up in the
store; on a lookup/decode error propagate it; when no record exists fall
back to fresh synthesis (`Generate` of the config); when a record exists
reconstruct the material from the decoded record
(`GenerateFromInfoData`). `um` is the infodata decoding registry. -/
def getInfoDataAndGenerateSecret (um : String → Except String InfoData)
    (s : SecretsManager) (secretConfig : SecretConfig) : Except String SecretData :=
  match GetInfoData um s.GardenerResourceDataList secretConfig.name with
  | Except.error e => Except.error e
  | Except.ok none => secretConfig.generate
  | Except.ok (some secretInfoData) => secretConfig.generateFromInfoData secretInfoData

/-- `deploySecret`: when the existing runtime object cache holds an object
under this name, return it unchanged without touching the client;
otherwise build an opaque secret from the resolved payload and request
its creation, propagating a creation error. -/
def deploySecret (s : SecretsManager) (cl : K8sClient) (ns : String)
    (secretInterface : SecretData) (secretName : String) :
    K8sClient × Except String Secret :=
  match mapFind s.existingSecrets secretName with
  | some secret => (cl, Except.ok secret)
  | none =>
      let secret : Secret := { name := secretName, Namespace := ns,
                               type := "Opaque", data := secretInterface }
      match K8sClient.create cl secret with
      | (cl₁, some e) => (cl₁, Except.error e)
      | (cl₁, none) => (cl₁, Except.ok secret)

/-- Modelled from the spec: `secrets.GenerateClusterSecretsWithFunc`
(package `pkg/utils/secrets`) is not under src/. Per spec §4.2, for each
configuration in provider order it first resolves the materialized
credential through the supplied function, then ensures a runtime object
exists for the name (reuse from the existing object cache, else create) —
that per-name step is exactly `deploySecret` — collecting the results in
a map keyed by name and halting on the first error (objects created
before the failure stay created). -/
def GenerateClusterSecretsWithFunc (s : SecretsManager) (cl : K8sClient)
    (deployed : List (String × Secret)) (configs : List SecretConfig) (ns : String)
    (generateSecretFunc : SecretConfig → Except String SecretData) :
    K8sClient × Except String (List (String × Secret)) :=
  match configs with
  | [] => (cl, Except.ok deployed)
  | c :: rest =>
      match generateSecretFunc c with
      | Except.error e => (cl, Except.error e)
      | Except.ok d =>
          match deploySecret s cl ns d c.name with
          | (cl₁, Except.error e) => (cl₁, Except.error e)
          | (cl₁, Except.ok sec) =>
              GenerateClusterSecretsWithFunc s cl₁
                (mapInsert deployed c.name sec) rest ns generateSecretFunc

/-- The `for name, secret := range deployedSecrets` merge loop of
`Deploy`: insert every returned binding into the deployed object map,
overwriting bindings of the same name. -/
def mergeDeployed (old : List (String × Secret)) :
    List (String × Secret) → List (String × Secret)
  | [] => old
  | p :: rest => mergeDeployed (mapInsert old p.fst p.snd) rest

/-- `Deploy`: a nil provider function is a guarded no-op returning nil;
otherwise call the provider, resolve and deploy every configuration via
`GenerateClusterSecretsWithFunc` with `getInfoDataAndGenerateSecret` as
the resolver, and on success merge the returned objects into
`DeployedSecrets`. The store is never written; on error the engine state
is unchanged (the client keeps whatever objects were already created). -/
def Deploy (um : String → Except String InfoData) (s : SecretsManager)
    (cl : K8sClient) (ns : String) : SecretsManager × K8sClient × Option String :=
  match s.secretConfigGenerator with
  | none => (s, cl, none)
  | some f =>
      match f s.certificateAuthorities with
      | Except.error e => (s, cl, some e)
      | Except.ok secretConfigs =>
          match GenerateClusterSecretsWithFunc s cl [] secretConfigs ns
              (fun c => getInfoDataAndGenerateSecret um s c) with
          | (cl₁, Except.error e) => (s, cl₁, some e)
          | (cl₁, Except.ok deployedSecrets) =>
              ({ s with DeployedSecrets := mergeDeployed s.DeployedSecrets deployedSecrets },
               cl₁, none)

/-! ### Lemmas about the encoded record store -/

/-- Lookup on a cons cell whose head has the looked-up name. -/
theorem get_cons_pos (rd : GardenerResourceData) (l : GardenerResourceDataList)
    (n : String) (h : (rd.name == n) = true) :
    GardenerResourceDataList.get (rd :: l) n = some rd := by
  simp [GardenerResourceDataList.get, h]

/-- Lookup on a cons cell whose head has a different name. -/
theorem get_cons_neg (rd : GardenerResourceData) (l : GardenerResourceDataList)
    (n : String) (h : (rd.name == n) = false) :
    GardenerResourceDataList.get (rd :: l) n = GardenerResourceDataList.get l n := by
  simp [GardenerResourceDataList.get, h]

/-- Replacing every record named `e.name` by `e` makes the first lookup of
`e.name` return `e`, provided the name was present. -/
theorem get_replace_self (e : GardenerResourceData) :
    ∀ l : GardenerResourceDataList,
      (GardenerResourceDataList.get l e.name).isSome = true →
      GardenerResourceDataList.get
        (List.map (fun rd => if rd.name == e.name then e else rd) l) e.name = some e := by
  intro l
  induction l with
  | nil => intro h; simp [GardenerResourceDataList.get] at h
  | cons a tl ih =>
      intro h
      simp only [List.map]
      cases hb : (a.name == e.name) with
      | true =>
          rw [if_pos rfl]
          exact get_cons_pos e _ e.name (by simp)
      | false =>
          rw [get_cons_neg a tl e.name hb] at h
          rw [if_neg (by simp)]
          rw [get_cons_neg a _ e.name hb]
          exact ih h

/-- Replacing every record named `e.name` by `e` does not change the
lookup of any other name. -/
theorem get_replace_other (e : GardenerResourceData) (n : String) (hn : n ≠ e.name) :
    ∀ l : GardenerResourceDataList,
      GardenerResourceDataList.get
        (List.map (fun rd => if rd.name == e.name then e else rd) l) n =
      GardenerResourceDataList.get l n := by
  have hen : (e.name == n) = false := by
    rw [beq_eq_false_iff_ne]
    exact fun he => hn he.symm
  intro l
  induction l with
  | nil => rfl
  | cons a tl ih =>
      simp only [List.map]
      cases hb : (a.name == e.name) with
      | true =>
          have han : (a.name == n) = false := by
            rw [beq_eq_false_iff_ne]
            rw [beq_iff_eq] at hb
            rw [hb]
            exact fun he => hn he.symm
          rw [if_pos rfl]
          rw [get_cons_neg e _ n hen, get_cons_neg a tl n han]
          exact ih
      | false =>
          rw [if_neg (by simp)]
          cases han : (a.name == n) with
          | true => rw [get_cons_pos a _ n han, get_cons_pos a tl n han]
          | false =>
              rw [get_cons_neg a _ n han, get_cons_neg a tl n han]
              exact ih

/-- Looking a name up past an appended record of a different name is the
same as looking it up in the original list. -/
theorem get_append_other (e : GardenerResourceData) (n : String) (hn : n ≠ e.name) :
    ∀ l : GardenerResourceDataList,
      GardenerResourceDataList.get (l ++ [e]) n = GardenerResourceDataList.get l n := by
  have hen : (e.name == n) = false := by
    rw [beq_eq_false_iff_ne]
    exact fun he => hn he.symm
  intro l
  induction l with
  | nil =>
      show GardenerResourceDataList.get [e] n = GardenerResourceDataList.get [] n
      rw [get_cons_neg e [] n hen]
  | cons a tl ih =>
      rw [List.cons_append]
      cases han : (a.name == n) with
      | true => rw [get_cons_pos a _ n han, get_cons_pos a tl n han]
      | false =>
          rw [get_cons_neg a _ n han, get_cons_neg a tl n han]
          exact ih

/-- Appending a record named `e.name` to a list that does not contain the
name makes its lookup return `e`. -/
theorem get_append_self (e : GardenerResourceData) :
    ∀ l : GardenerResourceDataList,
      (GardenerResourceDataList.get l e.name).isSome = false →
      GardenerResourceDataList.get (l ++ [e]) e.name = some e := by
  intro l
  induction l with
  | nil =>
      intro _
      show GardenerResourceDataList.get [e] e.name = some e
      exact get_cons_pos e [] e.name (by simp)
  | cons a tl ih =>
      intro h
      rw [List.cons_append]
      cases hb : (a.name == e.name) with
      | true =>
          rw [get_cons_pos a tl e.name hb] at h
          simp at h
      | false =>
          rw [get_cons_neg a tl e.name hb] at h
          rw [get_cons_neg a _ e.name hb]
          exact ih h

/-- After upserting `e`, looking its name up yields `e` itself. -/
theorem get_upsert_self (l : GardenerResourceDataList) (e : GardenerResourceData) :
    GardenerResourceDataList.get (GardenerResourceDataList.upsert l e) e.name = some e := by
  unfold GardenerResourceDataList.upsert
  by_cases h : (GardenerResourceDataList.get l e.name).isSome = true
  · rw [if_pos h]
    exact get_replace_self e l h
  · rw [if_neg h]
    exact get_append_self e l (by simpa using h)

/-- Upserting `e` does not change the lookup of any other name. -/
theorem get_upsert_other (l : GardenerResourceDataList) (e : GardenerResourceData)
    (n : String) (hn : n ≠ e.name) :
    GardenerResourceDataList.get (GardenerResourceDataList.upsert l e) n =
      GardenerResourceDataList.get l n := by
  unfold GardenerResourceDataList.upsert
  by_cases h : (GardenerResourceDataList.get l e.name).isSome = true
  · rw [if_pos h]
    exact get_replace_other e n hn l
  · rw [if_neg h]
    exact get_append_other e n hn l

/-- Upserting preserves the presence of every name already present. -/
theorem get_upsert_isSome (l : GardenerResourceDataList) (e : GardenerResourceData)
    (n : String) (h : (GardenerResourceDataList.get l n).isSome = true) :
    (GardenerResourceDataList.get (GardenerResourceDataList.upsert l e) n).isSome = true := by
  by_cases hn : n = e.name
  · subst hn
    rw [get_upsert_self]
    rfl
  · rw [get_upsert_other l e n hn]
    exact h

/-! ### Lemmas about the Generate path -/

/-- A per-configuration Generate step only ever touches the store field:
the provider function and the authority cache are preserved. -/
theorem genStep_fields (s : SecretsManager) (c : SecretConfig)
    (s₁ : SecretsManager) (eo : Option String)
    (h : generateInfoDataAndUpdateResourceList s c = (s₁, eo)) :
    s₁.secretConfigGenerator = s.secretConfigGenerator ∧
    s₁.certificateAuthorities = s.certificateAuthorities := by
  unfold generateInfoDataAndUpdateResourceList at h
  split at h
  · cases h; exact ⟨rfl, rfl⟩
  · split at h
    · cases h; exact ⟨rfl, rfl⟩
    · split at h
      · cases h; exact ⟨rfl, rfl⟩
      · cases h; exact ⟨rfl, rfl⟩

/-- A per-configuration Generate step that reports an error leaves the
state untouched. -/
theorem genStep_error (s : SecretsManager) (c : SecretConfig)
    (s₁ : SecretsManager) (e : String)
    (h : generateInfoDataAndUpdateResourceList s c = (s₁, some e)) :
    s₁ = s := by
  unfold generateInfoDataAndUpdateResourceList at h
  split at h
  · simp at h
  · split at h
    · exact ((Prod.mk.injEq _ _ _ _).mp h).1.symm
    · split at h
      · exact ((Prod.mk.injEq _ _ _ _).mp h).1.symm
      · simp at h

/-- A per-configuration Generate step whose name is already recorded is a
skip: no mutation, no error. -/
theorem genStep_skip (s : SecretsManager) (c : SecretConfig)
    (h : (GardenerResourceDataList.get s.GardenerResourceDataList c.name).isSome = true) :
    generateInfoDataAndUpdateResourceList s c = (s, none) := by
  unfold generateInfoDataAndUpdateResourceList
  rw [if_pos h]

/-- After a successful per-configuration Generate step, the store has a
record under the configuration's name. -/
theorem genStep_present (s : SecretsManager) (c : SecretConfig) (s₁ : SecretsManager)
    (h : generateInfoDataAndUpdateResourceList s c = (s₁, none)) :
    (GardenerResourceDataList.get s₁.GardenerResourceDataList c.name).isSome = true := by
  unfold generateInfoDataAndUpdateResourceList at h
  split at h
  · next hpres =>
      cases h
      exact hpres
  · split at h
    · simp at h
    · next d hd =>
        split at h
        · simp at h
        · next l hl =>
            cases h
            unfold UpsertInfoData at hl
            split at hl
            · simp at hl
            · next raw hraw =>
                cases hl
                have := get_upsert_self s.GardenerResourceDataList
                  ⟨c.name, d.typeVersion, raw⟩
                simp only [this]
                rfl

/-- A per-configuration Generate step preserves the presence of every
already-recorded name. -/
theorem genStep_mono (s : SecretsManager) (c : SecretConfig)
    (s₁ : SecretsManager) (eo : Option String) (n : String)
    (h : generateInfoDataAndUpdateResourceList s c = (s₁, eo))
    (hn : (GardenerResourceDataList.get s.GardenerResourceDataList n).isSome = true) :
    (GardenerResourceDataList.get s₁.GardenerResourceDataList n).isSome = true := by
  unfold generateInfoDataAndUpdateResourceList at h
  split at h
  · cases h; exact hn
  · split at h
    · cases h; exact hn
    · split at h
      · cases h; exact hn
      · next l hl =>
          cases h
          unfold UpsertInfoData at hl
          split at hl
          · simp at hl
          · cases hl
            exact get_upsert_isSome _ _ _ hn

/-- The Generate loop preserves the presence of every recorded name. -/
theorem generateLoop_mono (cs : List SecretConfig) :
    ∀ s s₁ eo n, generateLoop s cs = (s₁, eo) →
      (GardenerResourceDataList.get s.GardenerResourceDataList n).isSome = true →
      (GardenerResourceDataList.get s₁.GardenerResourceDataList n).isSome = true := by
  induction cs with
  | nil =>
      intro s s₁ eo n h hn
      cases h
      exact hn
  | cons c rest ih =>
      intro s s₁ eo n h hn
      unfold generateLoop at h
      cases hstep : generateInfoDataAndUpdateResourceList s c with
      | mk s' eo' =>
          rw [hstep] at h
          cases eo' with
          | some e =>
              cases h
              exact genStep_mono s c s₁ (some e) n hstep hn
          | none =>
              exact ih s' s₁ eo n h (genStep_mono s c s' none n hstep hn)

/-- The Generate loop only ever touches the store field. -/
theorem generateLoop_fields (cs : List SecretConfig) :
    ∀ s s₁ eo, generateLoop s cs = (s₁, eo) →
      s₁.secretConfigGenerator = s.secretConfigGenerator ∧
      s₁.certificateAuthorities = s.certificateAuthorities := by
  induction cs with
  | nil =>
      intro s s₁ eo h
      cases h
      exact ⟨rfl, rfl⟩
  | cons c rest ih =>
      intro s s₁ eo h
      unfold generateLoop at h
      cases hstep : generateInfoDataAndUpdateResourceList s c with
      | mk s' eo' =>
          rw [hstep] at h
          cases eo' with
          | some e =>
              cases h
              exact genStep_fields s c s₁ (some e) hstep
          | none =>
              have h₁ := ih s' s₁ eo h
              have h₂ := genStep_fields s c s' none hstep
              exact ⟨h₁.1.trans h₂.1, h₁.2.trans h₂.2⟩

/-- Re-running the Generate loop from the state it reached reproduces that
state and the same error verbatim. -/
theorem generateLoop_idem (cs : List SecretConfig) :
    ∀ s s₁ eo, generateLoop s cs = (s₁, eo) →
      generateLoop s₁ cs = (s₁, eo) := by
  induction cs with
  | nil =>
      intro s s₁ eo h
      cases h
      rfl
  | cons c rest ih =>
      intro s s₁ eo h
      unfold generateLoop at h ⊢
      cases hstep : generateInfoDataAndUpdateResourceList s c with
      | mk s' eo' =>
          rw [hstep] at h
          cases eo' with
          | some e =>
              cases h
              have hs : s₁ = s := genStep_error s c s₁ e hstep
              subst hs
              rw [hstep]
          | none =>
              have hpres : (GardenerResourceDataList.get
                  s₁.GardenerResourceDataList c.name).isSome = true :=
                generateLoop_mono rest s' s₁ eo c.name h
                  (genStep_present s c s' hstep)
              rw [genStep_skip s₁ c hpres]
              exact ih s' s₁ eo h

/-- Splitting the Generate loop at an arbitrary point: the suffix is only
processed when the prefix succeeded, and a prefix error is returned as is. -/
theorem generateLoop_append (pre rest : List SecretConfig) :
    ∀ s, generateLoop s (pre ++ rest) =
      match generateLoop s pre with
      | (s₁, none) => generateLoop s₁ rest
      | (s₁, some e) => (s₁, some e) := by
  induction pre with
  | nil => intro s; rfl
  | cons c tl ih =>
      intro s
      rw [List.cons_append]
      cases hstep : generateInfoDataAndUpdateResourceList s c with
      | mk s' eo' =>
          cases eo' with
          | some e => simp only [generateLoop, hstep]
          | none =>
              simp only [generateLoop, hstep]
              exact ih s'

/-! ### Lemmas about Go-map association lists -/

/-- Lookup on a cons cell whose head has the looked-up key. -/
theorem mapFind_cons_pos (p : String × Secret) (m : List (String × Secret))
    (k : String) (h : (p.fst == k) = true) :
    mapFind (p :: m) k = some p.snd := by
  simp [mapFind, h]

/-- Lookup on a cons cell whose head has a different key. -/
theorem mapFind_cons_neg (p : String × Secret) (m : List (String × Secret))
    (k : String) (h : (p.fst == k) = false) :
    mapFind (p :: m) k = mapFind m k := by
  simp [mapFind, h]

/-- Replacing every binding of `k` by `(k, v)` makes the lookup of `k`
return `v`, provided `k` was bound. -/
theorem mapFind_replace_self (k : String) (v : Secret) :
    ∀ m, (mapFind m k).isSome = true →
      mapFind (List.map (fun p => if p.fst == k then (k, v) else p) m) k = some v := by
  intro m
  induction m with
  | nil => intro h; simp [mapFind] at h
  | cons p tl ih =>
      intro h
      simp only [List.map]
      cases hb : (p.fst == k) with
      | true =>
          rw [if_pos rfl]
          exact mapFind_cons_pos (k, v) _ k (by simp)
      | false =>
          rw [mapFind_cons_neg p tl k hb] at h
          rw [if_neg (by simp)]
          rw [mapFind_cons_neg p _ k hb]
          exact ih h

/-- Replacing every binding of `k` by `(k, v)` does not change the lookup
of any other key. -/
theorem mapFind_replace_other (k : String) (v : Secret) (k' : String) (hk : k' ≠ k) :
    ∀ m, mapFind (List.map (fun p => if p.fst == k then (k, v) else p) m) k' =
      mapFind m k' := by
  have hkv : ((k, v).fst == k') = false := by
    rw [beq_eq_false_iff_ne]
    exact fun he => hk he.symm
  intro m
  induction m with
  | nil => rfl
  | cons p tl ih =>
      simp only [List.map]
      cases hb : (p.fst == k) with
      | true =>
          have hp : (p.fst == k') = false := by
            rw [beq_eq_false_iff_ne]
            rw [beq_iff_eq] at hb
            rw [hb]
            exact fun he => hk he.symm
          rw [if_pos rfl]
          rw [mapFind_cons_neg (k, v) _ k' hkv, mapFind_cons_neg p tl k' hp]
          exact ih
      | false =>
          rw [if_neg (by simp)]
          cases hp : (p.fst == k') with
          | true => rw [mapFind_cons_pos p _ k' hp, mapFind_cons_pos p tl k' hp]
          | false =>
              rw [mapFind_cons_neg p _ k' hp, mapFind_cons_neg p tl k' hp]
              exact ih

/-- Looking a key up past an appended binding of a different key is the
same as looking it up in the original list. -/
theorem mapFind_append_other (k : String) (v : Secret) (k' : String) (hk : k' ≠ k) :
    ∀ m, mapFind (m ++ [(k, v)]) k' = mapFind m k' := by
  have hkv : ((k, v).fst == k') = false := by
    rw [beq_eq_false_iff_ne]
    exact fun he => hk he.symm
  intro m
  induction m with
  | nil =>
      show mapFind [(k, v)] k' = mapFind [] k'
      rw [mapFind_cons_neg (k, v) [] k' hkv]
  | cons p tl ih =>
      rw [List.cons_append]
      cases hp : (p.fst == k') with
      | true => rw [mapFind_cons_pos p _ k' hp, mapFind_cons_pos p tl k' hp]
      | false =>
          rw [mapFind_cons_neg p _ k' hp, mapFind_cons_neg p tl k' hp]
          exact ih

/-- Appending a binding of `k` to a list where `k` is unbound makes the
lookup of `k` return it. -/
theorem mapFind_append_self (k : String) (v : Secret) :
    ∀ m, (mapFind m k).isSome = false → mapFind (m ++ [(k, v)]) k = some v := by
  intro m
  induction m with
  | nil =>
      intro _
      show mapFind [(k, v)] k = some v
      exact mapFind_cons_pos (k, v) [] k (by simp)
  | cons p tl ih =>
      intro h
      rw [List.cons_append]
      cases hb : (p.fst == k) with
      | true =>
          rw [mapFind_cons_pos p tl k hb] at h
          simp at h
      | false =>
          rw [mapFind_cons_neg p tl k hb] at h
          rw [mapFind_cons_neg p _ k hb]
          exact ih h

/-- Go-map insertion followed by lookup of the same key yields the
inserted value. -/
theorem mapFind_insert_self (m : List (String × Secret)) (k : String) (v : Secret) :
    mapFind (mapInsert m k v) k = some v := by
  unfold mapInsert
  by_cases h : (mapFind m k).isSome = true
  · rw [if_pos h]
    exact mapFind_replace_self k v m h
  · rw [if_neg h]
    exact mapFind_append_self k v m (by simpa using h)

/-- Go-map insertion does not change the lookup of any other key. -/
theorem mapFind_insert_other (m : List (String × Secret)) (k : String) (v : Secret)
    (k' : String) (hk : k' ≠ k) :
    mapFind (mapInsert m k v) k' = mapFind m k' := by
  unfold mapInsert
  by_cases h : (mapFind m k).isSome = true
  · rw [if_pos h]
    exact mapFind_replace_other k v k' hk m
  · rw [if_neg h]
    exact mapFind_append_other k v k' hk m

/-- Go-map insertion preserves the presence of every bound key. -/
theorem mapFind_insert_isSome (m : List (String × Secret)) (k : String) (v : Secret)
    (k' : String) (h : (mapFind m k').isSome = true) :
    (mapFind (mapInsert m k v) k').isSome = true := by
  by_cases hk : k' = k
  · subst hk
    rw [mapFind_insert_self]
    rfl
  · rw [mapFind_insert_other m k v k' hk]
    exact h

/-- Every key of an insertion result is the inserted key or a key of the
original map. -/
theorem mapInsert_keysSub (m : List (String × Secret)) (k : String) (v : Secret)
    (k' : String) (hk' : k' ∈ List.map Prod.fst (mapInsert m k v)) :
    k' = k ∨ k' ∈ List.map Prod.fst m := by
  unfold mapInsert at hk'
  by_cases h : (mapFind m k).isSome = true
  · rw [if_pos h] at hk'
    rw [List.map_map] at hk'
    obtain ⟨p, hp, hfk⟩ := List.mem_map.mp hk'
    by_cases hb : (p.fst == k) = true
    · left
      rw [← hfk]
      simp [Function.comp, hb]
    · right
      have hfix : (Prod.fst ∘ fun q => if q.fst == k then (k, v) else q) p = p.fst := by
        simp only [Function.comp]
        rw [if_neg hb]
      rw [← hfk, hfix]
      exact List.mem_map.mpr ⟨p, hp, rfl⟩
  · rw [if_neg h] at hk'
    rw [List.map_append] at hk'
    rcases List.mem_append.mp hk' with h1 | h2
    · right; exact h1
    · left; simpa using h2

/-- An unbound key does not occur among the keys of the map. -/
theorem mapFind_none_notMem (k : String) :
    ∀ m, (mapFind m k).isSome = false → k ∉ List.map Prod.fst m := by
  intro m
  induction m with
  | nil => intro _ hmem; simp at hmem
  | cons p tl ih =>
      intro h hmem
      cases hb : (p.fst == k) with
      | true =>
          rw [mapFind_cons_pos p tl k hb] at h
          simp at h
      | false =>
          rw [mapFind_cons_neg p tl k hb] at h
          rcases List.mem_map.mp hmem with ⟨q, hq, hqk⟩
          rcases List.mem_cons.mp hq with hqp | hqtl
          · rw [beq_eq_false_iff_ne] at hb
            exact hb (hqp ▸ hqk)
          · exact ih h (List.mem_map.mpr ⟨q, hqtl, hqk⟩)

/-- Go-map insertion keeps the keys duplicate-free. -/
theorem mapInsert_nodupKeys (m : List (String × Secret)) (k : String) (v : Secret)
    (h : (List.map Prod.fst m).Nodup) :
    (List.map Prod.fst (mapInsert m k v)).Nodup := by
  unfold mapInsert
  by_cases hp : (mapFind m k).isSome = true
  · rw [if_pos hp]
    rw [List.map_map]
    have : List.map (Prod.fst ∘ fun q => if q.fst == k then (k, v) else q) m =
        List.map Prod.fst m := by
      apply List.map_congr_left
      intro p _
      simp only [Function.comp]
      cases hb : (p.fst == k) with
      | true =>
          rw [if_pos rfl]
          rw [beq_iff_eq] at hb
          exact hb.symm
      | false => rw [if_neg (by simp)]
    rw [this]
    exact h
  · rw [if_neg hp]
    rw [List.map_append]
    rw [List.nodup_append]
    refine ⟨h, by simp, ?_⟩
    intro a ha hb
    simp only [List.map_cons, List.map_nil, List.mem_singleton] at hb
    exact mapFind_none_notMem k m (by simpa using hp) (hb ▸ ha)

/-- Merging does not change the lookup of a key bound by none of the new
entries. -/
theorem mergeDeployed_frame (k : String) :
    ∀ new old, (∀ p ∈ new, p.fst ≠ k) →
      mapFind (mergeDeployed old new) k = mapFind old k := by
  intro new
  induction new with
  | nil => intro old _; rfl
  | cons p rest ih =>
      intro old hall
      show mapFind (mergeDeployed (mapInsert old p.fst p.snd) rest) k = _
      rw [ih _ (fun q hq => hall q (List.mem_cons_of_mem p hq))]
      exact mapFind_insert_other old p.fst p.snd k
        (fun he => hall p (List.mem_cons_self p rest) he.symm)

/-- Merging preserves the presence of every key bound in the old map. -/
theorem mergeDeployed_isSome_mono (k : String) :
    ∀ new old, (mapFind old k).isSome = true →
      (mapFind (mergeDeployed old new) k).isSome = true := by
  intro new
  induction new with
  | nil => intro old h; exact h
  | cons p rest ih =>
      intro old h
      exact ih _ (mapFind_insert_isSome old p.fst p.snd k h)

/-- When the new entries have duplicate-free keys, merging makes the
lookup of a key bound by them return exactly their value. -/
theorem mergeDeployed_find_right (k : String) (v : Secret) :
    ∀ new old, (List.map Prod.fst new).Nodup → mapFind new k = some v →
      mapFind (mergeDeployed old new) k = some v := by
  intro new
  induction new with
  | nil => intro old _ h; simp [mapFind] at h
  | cons p rest ih =>
      intro old hnd h
      rw [List.map_cons] at hnd
      have hnotin : p.fst ∉ List.map Prod.fst rest := (List.nodup_cons.mp hnd).1
      have hndr : (List.map Prod.fst rest).Nodup := (List.nodup_cons.mp hnd).2
      show mapFind (mergeDeployed (mapInsert old p.fst p.snd) rest) k = some v
      cases hb : (p.fst == k) with
      | true =>
          rw [mapFind_cons_pos p rest k hb] at h
          rw [beq_iff_eq] at hb
          subst hb
          have hrest : ∀ q ∈ rest, q.fst ≠ p.fst := by
            intro q hq he
            exact hnotin (List.mem_map.mpr ⟨q, hq, he⟩)
          rw [mergeDeployed_frame p.fst rest _ hrest]
          rw [mapFind_insert_self]
          exact h
      | false =>
          rw [mapFind_cons_neg p rest k hb] at h
          exact ih _ hndr h

/-- Merging makes every key bound by the new entries present. -/
theorem mergeDeployed_isSome_right (k : String) :
    ∀ new old, (mapFind new k).isSome = true →
      (mapFind (mergeDeployed old new) k).isSome = true := by
  intro new
  induction new with
  | nil => intro old h; simp [mapFind] at h
  | cons p rest ih =>
      intro old h
      show (mapFind (mergeDeployed (mapInsert old p.fst p.snd) rest) k).isSome = true
      cases hb : (p.fst == k) with
      | true =>
          rw [beq_iff_eq] at hb
          apply mergeDeployed_isSome_mono
          rw [hb, mapFind_insert_self]
          rfl
      | false =>
          rw [mapFind_cons_neg p rest k hb] at h
          exact ih _ h

/-! ### Lemmas about the Deploy loop -/

/-- Every creation attempt made by `deploySecret` is for a name with no
entry in the existing runtime object cache: a cached name is returned
without touching the client. -/
theorem deploySecret_attempted (s : SecretsManager) (cl : K8sClient) (ns : String)
    (d : SecretData) (name : String) (cl₁ : K8sClient) (rs : Except String Secret)
    (h : deploySecret s cl ns d name = (cl₁, rs)) :
    ∀ sec, sec ∈ cl₁.attempted →
      sec ∈ cl.attempted ∨ (sec.name = name ∧ mapFind s.existingSecrets name = none) := by
  intro sec hsec
  unfold deploySecret at h
  cases hex : mapFind s.existingSecrets name with
  | some secret =>
      rw [hex] at h
      cases h
      exact Or.inl hsec
  | none =>
      rw [hex] at h
      simp only [K8sClient.create] at h
      cases hcf : cl.createFails name with
      | some e =>
          rw [hcf] at h
          cases h
          rcases List.mem_append.mp hsec with hin | hone
          · exact Or.inl hin
          · right
            refine ⟨?_, rfl⟩
            rw [List.mem_singleton] at hone
            rw [hone]
      | none =>
          rw [hcf] at h
          cases h
          rcases List.mem_append.mp hsec with hin | hone
          · exact Or.inl hin
          · right
            refine ⟨?_, rfl⟩
            rw [List.mem_singleton] at hone
            rw [hone]

/-- Every creation attempt made by the Deploy loop beyond the attempts
already on the client is for a name with no entry in the existing runtime
object cache. -/
theorem GCS_attempted (s : SecretsManager) (ns : String)
    (gf : SecretConfig → Except String SecretData) :
    ∀ (cs : List SecretConfig) cl dep cl₁ r,
      GenerateClusterSecretsWithFunc s cl dep cs ns gf = (cl₁, r) →
      ∀ sec, sec ∈ cl₁.attempted →
        sec ∈ cl.attempted ∨ mapFind s.existingSecrets sec.name = none := by
  intro cs
  induction cs with
  | nil =>
      intro cl dep cl₁ r h sec hsec
      cases h
      exact Or.inl hsec
  | cons c rest ih =>
      intro cl dep cl₁ r h sec hsec
      cases hgf : gf c with
      | error e =>
          simp only [GenerateClusterSecretsWithFunc, hgf] at h
          cases h
          exact Or.inl hsec
      | ok d =>
          simp only [GenerateClusterSecretsWithFunc, hgf] at h
          cases hds : deploySecret s cl ns d c.name with
          | mk cl' rs =>
              rw [hds] at h
              cases rs with
              | error e =>
                  cases h
                  rcases deploySecret_attempted s cl ns d c.name cl₁ (Except.error e)
                      hds sec hsec with hin | ⟨hname, hnone⟩
                  · exact Or.inl hin
                  · exact Or.inr (hname ▸ hnone)
              | ok sec' =>
                  rcases ih cl' (mapInsert dep c.name sec') cl₁ r h sec hsec with
                    hin' | hnone
                  · rcases deploySecret_attempted s cl ns d c.name cl'
                        (Except.ok sec') hds sec hin' with hin | ⟨hname, hnone⟩
                    · exact Or.inl hin
                    · exact Or.inr (hname ▸ hnone)
                  · exact Or.inr hnone

/-- A name cached in the existing runtime object cache ends up in the
Deploy loop's successful output bound to exactly the cached object. -/
theorem GCS_existing_find (s : SecretsManager) (ns : String)
    (gf : SecretConfig → Except String SecretData) (X : String) (P : Secret)
    (hx : mapFind s.existingSecrets X = some P) :
    ∀ (cs : List SecretConfig) cl dep cl₁ out,
      GenerateClusterSecretsWithFunc s cl dep cs ns gf = (cl₁, Except.ok out) →
      (mapFind dep X = some P ∨ ∃ c ∈ cs, c.name = X) →
      mapFind out X = some P := by
  intro cs
  induction cs with
  | nil =>
      intro cl dep cl₁ out h hpre
      cases h
      rcases hpre with hdep | ⟨c, hc, _⟩
      · exact hdep
      · exact absurd hc (List.not_mem_nil c)
  | cons c rest ih =>
      intro cl dep cl₁ out h hpre
      cases hgf : gf c with
      | error e =>
          simp only [GenerateClusterSecretsWithFunc, hgf] at h
          exact absurd h (by simp)
      | ok d =>
          simp only [GenerateClusterSecretsWithFunc, hgf] at h
          cases hds : deploySecret s cl ns d c.name with
          | mk cl' rs =>
              rw [hds] at h
              cases rs with
              | error e => exact absurd h (by simp)
              | ok sec' =>
                  apply ih cl' (mapInsert dep c.name sec') cl₁ out h
                  by_cases hcx : c.name = X
                  · left
                    have hsec : sec' = P := by
                      unfold deploySecret at hds
                      rw [hcx, hx] at hds
                      cases hds
                      rfl
                    rw [hcx, hsec]
                    exact mapFind_insert_self dep X P
                  · rcases hpre with hdep | ⟨c₀, hc₀, hc₀x⟩
                    · left
                      rw [mapFind_insert_other dep c.name sec' X
                        (fun he => hcx he.symm)]
                      exact hdep
                    · rcases List.mem_cons.mp hc₀ with hc₀c | hc₀rest
                      · exact absurd (hc₀c ▸ hc₀x) hcx
                      · exact Or.inr ⟨c₀, hc₀rest, hc₀x⟩

/-- A successful Deploy loop output binds every accumulated key and every
processed configuration's name. -/
theorem GCS_complete (s : SecretsManager) (ns : String)
    (gf : SecretConfig → Except String SecretData) :
    ∀ (cs : List SecretConfig) cl dep cl₁ out,
      GenerateClusterSecretsWithFunc s cl dep cs ns gf = (cl₁, Except.ok out) →
      (∀ k, (mapFind dep k).isSome = true → (mapFind out k).isSome = true) ∧
      (∀ c ∈ cs, (mapFind out c.name).isSome = true) := by
  intro cs
  induction cs with
  | nil =>
      intro cl dep cl₁ out h
      cases h
      exact ⟨fun k hk => hk, fun c hc => absurd hc (List.not_mem_nil c)⟩
  | cons c rest ih =>
      intro cl dep cl₁ out h
      cases hgf : gf c with
      | error e =>
          simp only [GenerateClusterSecretsWithFunc, hgf] at h
          exact absurd h (by simp)
      | ok d =>
          simp only [GenerateClusterSecretsWithFunc, hgf] at h
          cases hds : deploySecret s cl ns d c.name with
          | mk cl' rs =>
              rw [hds] at h
              cases rs with
              | error e => exact absurd h (by simp)
              | ok sec' =>
                  have hih := ih cl' (mapInsert dep c.name sec') cl₁ out h
                  constructor
                  · intro k hk
                    exact hih.1 k (mapFind_insert_isSome dep c.name sec' k hk)
                  · intro c₀ hc₀
                    rcases List.mem_cons.mp hc₀ with hc₀c | hc₀rest
                    · subst hc₀c
                      apply hih.1
                      rw [mapFind_insert_self]
                      rfl
                    · exact hih.2 c₀ hc₀rest

/-- Every key of a successful Deploy loop output comes from the
accumulator or is the name of one of the processed configurations. -/
theorem GCS_keys (s : SecretsManager) (ns : String)
    (gf : SecretConfig → Except String SecretData) :
    ∀ (cs : List SecretConfig) cl dep cl₁ out,
      GenerateClusterSecretsWithFunc s cl dep cs ns gf = (cl₁, Except.ok out) →
      ∀ p ∈ out, p.fst ∈ List.map Prod.fst dep ∨ ∃ c ∈ cs, c.name = p.fst := by
  intro cs
  induction cs with
  | nil =>
      intro cl dep cl₁ out h p hp
      cases h
      exact Or.inl (List.mem_map.mpr ⟨p, hp, rfl⟩)
  | cons c rest ih =>
      intro cl dep cl₁ out h p hp
      cases hgf : gf c with
      | error e =>
          simp only [GenerateClusterSecretsWithFunc, hgf] at h
          exact absurd h (by simp)
      | ok d =>
          simp only [GenerateClusterSecretsWithFunc, hgf] at h
          cases hds : deploySecret s cl ns d c.name with
          | mk cl' rs =>
              rw [hds] at h
              cases rs with
              | error e => exact absurd h (by simp)
              | ok sec' =>
                  rcases ih cl' (mapInsert dep c.name sec') cl₁ out h p hp with
                    hin | ⟨c₀, hc₀, hc₀p⟩
                  · rcases mapInsert_keysSub dep c.name sec' p.fst hin with hc | hdep
                    · exact Or.inr ⟨c, List.mem_cons_self c rest, hc.symm⟩
                    · exact Or.inl hdep
                  · exact Or.inr ⟨c₀, List.mem_cons_of_mem c hc₀, hc₀p⟩

/-- A successful Deploy loop output has duplicate-free keys when the
accumulator does. -/
theorem GCS_nodupKeys (s : SecretsManager) (ns : String)
    (gf : SecretConfig → Except String SecretData) :
    ∀ (cs : List SecretConfig) cl dep cl₁ out,
      GenerateClusterSecretsWithFunc s cl dep cs ns gf = (cl₁, Except.ok out) →
      (List.map Prod.fst dep).Nodup → (List.map Prod.fst out).Nodup := by
  intro cs
  induction cs with
  | nil =>
      intro cl dep cl₁ out h hnd
      cases h
      exact hnd
  | cons c rest ih =>
      intro cl dep cl₁ out h hnd
      cases hgf : gf c with
      | error e =>
          simp only [GenerateClusterSecretsWithFunc, hgf] at h
          exact absurd h (by simp)
      | ok d =>
          simp only [GenerateClusterSecretsWithFunc, hgf] at h
          cases hds : deploySecret s cl ns d c.name with
          | mk cl' rs =>
              rw [hds] at h
              cases rs with
              | error e => exact absurd h (by simp)
              | ok sec' =>
                  exact ih cl' (mapInsert dep c.name sec') cl₁ out h
                    (mapInsert_nodupKeys dep c.name sec' hnd)

/-! ### Claim theorems on the Generate path -/

/-- C1: Generate is idempotent — once a call to `Generate` has produced a
state (with no intervening store mutation from elsewhere), every further
call reproduces exactly that state and outcome, so the store content after
call N equals the content after call 1; and in particular a configuration
whose name already has a record in the store is processed with no mutation
and no error. -/
theorem generate_idempotent :
    (∀ s s₁ eo, Generate s = GoResult.returns (s₁, eo) →
        Generate s₁ = GoResult.returns (s₁, eo)) ∧
    (∀ s (c : SecretConfig),
        (GardenerResourceDataList.get s.GardenerResourceDataList c.name).isSome = true →
        generateInfoDataAndUpdateResourceList s c = (s, none)) := by
  constructor
  · intro s s₁ eo h
    cases hg : s.secretConfigGenerator with
    | none =>
        simp only [Generate, hg] at h
        exact GoResult.noConfusion h
    | some f =>
        cases hc : f s.certificateAuthorities with
        | error e =>
            simp only [Generate, hg, hc] at h
            injection h with h'
            cases h'
            simp only [Generate, hg, hc]
        | ok cs =>
            simp only [Generate, hg, hc] at h
            injection h with hl
            have hf := generateLoop_fields cs s s₁ eo hl
            simp only [Generate, hf.1, hg, hf.2, hc]
            rw [generateLoop_idem cs s s₁ eo hl]
  · exact fun s c h => genStep_skip s c h

/-- C5: when the config set provider fails, both `Generate` and `Deploy`
return the provider's error and perform no mutation at all — the store,
the deployed object map and the runtime client are left exactly as they
were. -/
theorem provider_failure_atomic (um : String → Except String InfoData)
    (s : SecretsManager) (cl : K8sClient) (ns : String)
    (f : SecretConfigGeneratorFunc) (e : String)
    (hg : s.secretConfigGenerator = some f)
    (hc : f s.certificateAuthorities = Except.error e) :
    Generate s = GoResult.returns (s, some e) ∧
    Deploy um s cl ns = (s, cl, some e) := by
  constructor
  · simp only [Generate, hg, hc]
  · simp only [Deploy, hg, hc]

/-- C6: Generate halts on the first failing configuration — when the
provider's list splits as `pre ++ c :: post` with `pre` processed
successfully and `c` failing, `Generate` returns `c`'s error and the
state reached after `pre` (the configurations of `post` are never
processed, the conclusion not depending on `post`), and every record
present after `pre` is still present in the returned state (no
rollback). -/
theorem generate_halt_on_error (s : SecretsManager) (f : SecretConfigGeneratorFunc)
    (pre : List SecretConfig) (c : SecretConfig) (post : List SecretConfig)
    (s₁ s₂ : SecretsManager) (err : String)
    (hg : s.secretConfigGenerator = some f)
    (hc : f s.certificateAuthorities = Except.ok (pre ++ c :: post))
    (hpre : generateLoop s pre = (s₁, none))
    (hstep : generateInfoDataAndUpdateResourceList s₁ c = (s₂, some err)) :
    Generate s = GoResult.returns (s₂, some err) ∧
    ∀ n, (GardenerResourceDataList.get s₁.GardenerResourceDataList n).isSome = true →
      (GardenerResourceDataList.get s₂.GardenerResourceDataList n).isSome = true := by
  constructor
  · simp only [Generate, hg, hc]
    rw [generateLoop_append pre (c :: post) s]
    rw [hpre]
    simp only [generateLoop, hstep]
  · intro n hx
    rw [genStep_error s₁ c s₂ err hstep]
    exact hx

/-- C7: `Deploy` on an engine whose provider function is nil is a no-op
that succeeds: it returns a nil error, leaves the engine state untouched
and never invokes the runtime client. -/
theorem deploy_nil_provider (um : String → Except String InfoData)
    (s : SecretsManager) (cl : K8sClient) (ns : String)
    (hg : s.secretConfigGenerator = none) :
    Deploy um s cl ns = (s, cl, none) := by
  simp only [Deploy, hg]

/-- C9: the nil-provider guard applies only to `Deploy` — with a nil
provider function, `Generate` dereferences the nil function and panics,
while `Deploy` returns successfully without touching anything. -/
theorem nil_provider_guard_only_deploy (um : String → Except String InfoData)
    (s : SecretsManager) (cl : K8sClient) (ns : String)
    (hg : s.secretConfigGenerator = none) :
    Generate s = GoResult.panics ∧ Deploy um s cl ns = (s, cl, none) := by
  constructor
  · simp only [Generate, hg]
  · simp only [Deploy, hg]

/-- C3: record precedence over synthesis — when the store holds a record
under the config's name (and it decodes), the material is resolved by
reconstruction from the decoded record; when the store holds no record,
the material is resolved by fresh synthesis. -/
theorem record_precedence (um : String → Except String InfoData)
    (s : SecretsManager) (c : SecretConfig) :
    (∀ rd d, GardenerResourceDataList.get s.GardenerResourceDataList c.name = some rd →
        um rd.data = Except.ok d →
        getInfoDataAndGenerateSecret um s c = c.generateFromInfoData d) ∧
    (GardenerResourceDataList.get s.GardenerResourceDataList c.name = none →
        getInfoDataAndGenerateSecret um s c = c.generate) := by
  constructor
  · intro rd d hrd hd
    simp only [getInfoDataAndGenerateSecret, GetInfoData, hrd, hd]
  · intro habs
    simp only [getInfoDataAndGenerateSecret, GetInfoData, habs]

/-- C4: `Deploy` is read-only with respect to the encoded record store —
for every state, namespace and outcome, the store after the call is
exactly the store before it. -/
theorem deploy_store_readonly (um : String → Except String InfoData)
    (s : SecretsManager) (cl : K8sClient) (ns : String) :
    (Deploy um s cl ns).1.GardenerResourceDataList = s.GardenerResourceDataList := by
  unfold Deploy
  split
  · rfl
  · split
    · rfl
    · split
      · rfl
      · rfl

/-- C10: the deployed object map is unchanged on any `Deploy` error — an
erroring call returns before the merge loop, so `DeployedSecrets` holds
exactly its pre-call entries, even when the client already created some
objects before the failure. -/
theorem deploy_error_keeps_deployed (um : String → Except String InfoData)
    (s : SecretsManager) (cl : K8sClient) (ns : String)
    (s₁ : SecretsManager) (cl₁ : K8sClient) (e : String)
    (h : Deploy um s cl ns = (s₁, cl₁, some e)) :
    s₁.DeployedSecrets = s.DeployedSecrets := by
  unfold Deploy at h
  split at h
  · simp at h
  · split at h
    · cases h; rfl
    · split at h
      · cases h; rfl
      · simp at h

/-- C2: reuse precedence — for a name `X` cached in the existing runtime
object cache with object `P`, `Deploy` never attempts creation of a
runtime object for `X` (every new creation attempt is for an uncached
name), and on success the deployed object map binds `X` to exactly `P`,
even when the encoded record store has no record for `X` (no hypothesis
relates the store and `X`). -/
theorem deploy_reuse_precedence (um : String → Except String InfoData)
    (s : SecretsManager) (cl : K8sClient) (ns : String) (X : String) (P : Secret)
    (f : SecretConfigGeneratorFunc) (configs : List SecretConfig)
    (s₁ : SecretsManager) (cl₁ : K8sClient) (eo : Option String)
    (hx : mapFind s.existingSecrets X = some P)
    (hg : s.secretConfigGenerator = some f)
    (hc : f s.certificateAuthorities = Except.ok configs)
    (hd : Deploy um s cl ns = (s₁, cl₁, eo)) :
    (∀ sec ∈ cl₁.attempted, sec ∈ cl.attempted ∨ sec.name ≠ X) ∧
    (eo = none → (∃ c ∈ configs, c.name = X) →
      mapFind s₁.DeployedSecrets X = some P) := by
  simp only [Deploy, hg, hc] at hd
  cases hgcs : GenerateClusterSecretsWithFunc s cl [] configs ns
      (fun c => getInfoDataAndGenerateSecret um s c) with
  | mk cl' r =>
      rw [hgcs] at hd
      have hatt : ∀ sec ∈ cl'.attempted,
          sec ∈ cl.attempted ∨ sec.name ≠ X := by
        intro sec hsec
        rcases GCS_attempted s ns (fun c => getInfoDataAndGenerateSecret um s c)
            configs cl [] cl' r hgcs sec hsec with hin | hnone
        · exact Or.inl hin
        · right
          intro he
          rw [he, hx] at hnone
          exact Option.noConfusion hnone
      cases r with
      | error e =>
          cases hd
          exact ⟨hatt, fun hnone => Option.noConfusion hnone⟩
      | ok out =>
          cases hd
          refine ⟨hatt, fun _ hmem => ?_⟩
          have hout : mapFind out X = some P :=
            GCS_existing_find s ns (fun c => getInfoDataAndGenerateSecret um s c)
              X P hx configs cl [] cl₁ out hgcs (Or.inr hmem)
          have hnd : (List.map Prod.fst out).Nodup :=
            GCS_nodupKeys s ns (fun c => getInfoDataAndGenerateSecret um s c)
              configs cl [] cl₁ out hgcs (by simp)
          exact mergeDeployed_find_right X P out s.DeployedSecrets hnd hout

/-- C8: Deploy result completeness and accumulation — after a successful
`Deploy`, every configuration produced by the provider has an entry under
its name in the deployed object map, and the map accumulates: the binding
of any name that is not one of the provider's configuration names is
exactly what it was before the call. -/
theorem deploy_complete_accumulate (um : String → Except String InfoData)
    (s : SecretsManager) (cl : K8sClient) (ns : String)
    (f : SecretConfigGeneratorFunc) (configs : List SecretConfig)
    (s₁ : SecretsManager) (cl₁ : K8sClient)
    (hg : s.secretConfigGenerator = some f)
    (hc : f s.certificateAuthorities = Except.ok configs)
    (hd : Deploy um s cl ns = (s₁, cl₁, none)) :
    (∀ c ∈ configs, (mapFind s₁.DeployedSecrets c.name).isSome = true) ∧
    (∀ k, (∀ c ∈ configs, c.name ≠ k) →
      mapFind s₁.DeployedSecrets k = mapFind s.DeployedSecrets k) := by
  simp only [Deploy, hg, hc] at hd
  cases hgcs : GenerateClusterSecretsWithFunc s cl [] configs ns
      (fun c => getInfoDataAndGenerateSecret um s c) with
  | mk cl' r =>
      rw [hgcs] at hd
      cases r with
      | error e => exact absurd hd (by simp)
      | ok out =>
          cases hd
          constructor
          · intro c hcmem
            have hsome : (mapFind out c.name).isSome = true :=
              (GCS_complete s ns (fun c => getInfoDataAndGenerateSecret um s c)
                configs cl [] cl₁ out hgcs).2 c hcmem
            exact mergeDeployed_isSome_right c.name out s.DeployedSecrets hsome
          · intro k hk
            have hall : ∀ p ∈ out, p.fst ≠ k := by
              intro p hp
              rcases GCS_keys s ns (fun c => getInfoDataAndGenerateSecret um s c)
                  configs cl [] cl₁ out hgcs p hp with hdep | ⟨c, hcmem, hcname⟩
              · simp at hdep
              · exact hcname ▸ hk c hcmem
            exact mergeDeployed_frame k out s.DeployedSecrets hall

/-! ### Concrete fixtures used by the witnesses -/

/-- Concrete infodata decoding registry: a raw record decodes to info data
that re-encodes to itself under type version `t`. -/
def exUm : String → Except String InfoData :=
  fun raw => Except.ok ⟨"t", Except.ok raw⟩

/-- Concrete info data encoding to `enc-a`. -/
def exInfo : InfoData := ⟨"t", Except.ok "enc-a"⟩

/-- Concrete configuration named `a` whose collaborator calls all
succeed. -/
def exCfgA : SecretConfig :=
  { name := "a"
    generateInfoData := Except.ok exInfo
    generate := Except.ok [("k", "fresh-a")]
    generateFromInfoData := fun d => Except.ok [("k", d.typeVersion)] }

/-- Provider returning the single configuration `a`. -/
def exGenA : SecretConfigGeneratorFunc := fun _ => Except.ok [exCfgA]

/-- Engine with an empty store and the single-config provider. -/
def exS0 : SecretsManager := NewSecretsManager [] (some exGenA)

/-- The state `Generate` reaches from `exS0`: one record inserted. -/
def exS1 : SecretsManager :=
  { exS0 with GardenerResourceDataList := [⟨"a", "t", "enc-a"⟩] }

/-- A pre-existing runtime object for name `tok`. -/
def exP : Secret := ⟨"tok", "ns", "Opaque", [("k", "old")]⟩

/-- Concrete configuration named `tok`. -/
def exCfgTok : SecretConfig :=
  { name := "tok"
    generateInfoData := Except.ok ⟨"t", Except.ok "enc-tok"⟩
    generate := Except.ok [("k", "fresh-tok")]
    generateFromInfoData := fun d => Except.ok [("k", d.typeVersion)] }

/-- Concrete configuration named `b`. -/
def exCfgB : SecretConfig :=
  { name := "b"
    generateInfoData := Except.ok ⟨"t", Except.ok "enc-b"⟩
    generate := Except.ok [("k", "fresh-b")]
    generateFromInfoData := fun d => Except.ok [("k", d.typeVersion)] }

/-- Concrete configuration named `c`. -/
def exCfgC : SecretConfig :=
  { name := "c"
    generateInfoData := Except.ok ⟨"t", Except.ok "enc-c"⟩
    generate := Except.ok [("k", "fresh-c")]
    generateFromInfoData := fun d => Except.ok [("k", d.typeVersion)] }

/-- A runtime client on which every creation succeeds, with no recorded
activity. -/
def exCl : K8sClient := ⟨fun _ => none, [], []⟩

/-- Provider returning the single configuration `tok`. -/
def exGenTok : SecretConfigGeneratorFunc := fun _ => Except.ok [exCfgTok]

/-- Engine with empty store, `tok` provider, and `tok` cached as an
existing runtime object. -/
def exS2 : SecretsManager :=
  WithExistingSecrets (NewSecretsManager [] (some exGenTok)) [("tok", exP)]

/-- The state `Deploy` reaches from `exS2`: the cached object reused. -/
def exS2r : SecretsManager := { exS2 with DeployedSecrets := [("tok", exP)] }

/-- Engine whose store already holds the record for `a`. -/
def exS3 : SecretsManager := NewSecretsManager [⟨"a", "t", "enc-a"⟩] (some exGenA)

/-- Provider that always fails. -/
def exGenErr : SecretConfigGeneratorFunc := fun _ => Except.error "no ca"

/-- Engine with the failing provider. -/
def exS5 : SecretsManager := NewSecretsManager [] (some exGenErr)

/-- Configuration named `b` whose info data synthesis fails. -/
def exCfgBad : SecretConfig :=
  { name := "b"
    generateInfoData := Except.error "boom"
    generate := Except.ok [("k", "fresh-b")]
    generateFromInfoData := fun d => Except.ok [("k", d.typeVersion)] }

/-- Provider returning `a` then the failing `b`. -/
def exGen6 : SecretConfigGeneratorFunc := fun _ => Except.ok [exCfgA, exCfgBad]

/-- Engine with empty store and the `a`-then-failing-`b` provider. -/
def exS6 : SecretsManager := NewSecretsManager [] (some exGen6)

/-- The state `Generate` reaches from `exS6` before the failure: only
`a`'s record inserted. -/
def exS6r : SecretsManager :=
  { exS6 with GardenerResourceDataList := [⟨"a", "t", "enc-a"⟩] }

/-- Engine with a nil provider function and an empty store. -/
def exS7 : SecretsManager := NewSecretsManager [] none

/-- Engine with a nil provider function and a nonempty store. -/
def exS9 : SecretsManager := NewSecretsManager [⟨"x", "t", "r"⟩] none

/-- Provider returning `tok` then `b`. -/
def exGen8 : SecretConfigGeneratorFunc := fun _ => Except.ok [exCfgTok, exCfgB]

/-- Engine with empty store, the `tok`-then-`b` provider, and `tok`
cached as an existing runtime object. -/
def exS8 : SecretsManager :=
  WithExistingSecrets (NewSecretsManager [] (some exGen8)) [("tok", exP)]

/-- The object `Deploy` creates for `b` in namespace `ns`. -/
def exSecB : Secret := ⟨"b", "ns", "Opaque", [("k", "fresh-b")]⟩

/-- The state `Deploy` reaches from `exS8`: `tok` reused, `b` created. -/
def exS8r : SecretsManager :=
  { exS8 with DeployedSecrets := [("tok", exP), ("b", exSecB)] }

/-- The client state after deploying from `exS8`: one attempt, one
creation, both for `b`. -/
def exCl8 : K8sClient := ⟨fun _ => none, [exSecB], [exSecB]⟩

/-- A runtime client that rejects the creation of `c`. -/
def exClFail : K8sClient :=
  ⟨fun n => if n == "c" then some "denied" else none, [], []⟩

/-- Provider returning `b` then `c`. -/
def exGen10 : SecretConfigGeneratorFunc := fun _ => Except.ok [exCfgB, exCfgC]

/-- Engine with empty store and the `b`-then-`c` provider. -/
def exS10 : SecretsManager := NewSecretsManager [] (some exGen10)

/-- The object `Deploy` attempts to create for `c` in namespace `ns`. -/
def exSecC : Secret := ⟨"c", "ns", "Opaque", [("k", "fresh-c")]⟩

/-- The client state after the failing deploy from `exS10`: `b` created,
`c` attempted and rejected. -/
def exCl10r : K8sClient :=
  ⟨fun n => if n == "c" then some "denied" else none, [exSecB, exSecC], [exSecB]⟩

/-! ### Witnesses -/

/-- Witness for C1: after a concrete successful `Generate`, a second call
reproduces the state and outcome verbatim. -/
theorem generate_idempotent_witness :
    Generate exS1 = GoResult.returns (exS1, none) :=
  generate_idempotent.1 exS0 exS1 none (by rfl)

/-- Witness for C2: on a concrete engine, `Deploy` returns the cached
object for `tok` unchanged. -/
theorem deploy_reuse_precedence_witness :
    mapFind exS2r.DeployedSecrets "tok" = some exP :=
  (deploy_reuse_precedence exUm exS2 exCl "ns" "tok" exP exGenTok [exCfgTok]
      exS2r exCl none rfl rfl rfl (by rfl)).2 rfl
    ⟨exCfgTok, List.mem_cons_self exCfgTok [], rfl⟩

/-- Witness for C3: on a concrete engine whose store has the record for
`a`, the material is resolved by reconstruction from the decoded record. -/
theorem record_precedence_witness :
    getInfoDataAndGenerateSecret exUm exS3 exCfgA =
      exCfgA.generateFromInfoData exInfo :=
  (record_precedence exUm exS3 exCfgA).1 ⟨"a", "t", "enc-a"⟩ exInfo rfl rfl

/-- Witness for C5: on a concrete engine with a failing provider, both
calls return the provider error and change nothing. -/
theorem provider_failure_atomic_witness :
    Generate exS5 = GoResult.returns (exS5, some "no ca") ∧
    Deploy exUm exS5 exCl "ns" = (exS5, exCl, some "no ca") :=
  provider_failure_atomic exUm exS5 exCl "ns" exGenErr "no ca" rfl rfl

/-- Witness for C6: on a concrete engine whose second configuration fails,
`Generate` returns the failure with `a`'s record kept. -/
theorem generate_halt_on_error_witness :
    Generate exS6 = GoResult.returns (exS6r, some "boom") :=
  (generate_halt_on_error exS6 exGen6 [exCfgA] exCfgBad [] exS6r exS6r "boom"
      rfl rfl (by rfl) (by rfl)).1

/-- Witness for C7: on a concrete engine with a nil provider, `Deploy` is
a successful no-op. -/
theorem deploy_nil_provider_witness :
    Deploy exUm exS7 exCl "ns" = (exS7, exCl, none) :=
  deploy_nil_provider exUm exS7 exCl "ns" rfl

/-- Witness for C8: on a concrete successful `Deploy`, the provider's
configuration `b` has an entry in the deployed object map. -/
theorem deploy_complete_accumulate_witness :
    (mapFind exS8r.DeployedSecrets exCfgB.name).isSome = true :=
  (deploy_complete_accumulate exUm exS8 exCl "ns" exGen8 [exCfgTok, exCfgB]
      exS8r exCl8 rfl rfl (by rfl)).1 exCfgB
    (List.mem_cons_of_mem exCfgTok (List.mem_cons_self exCfgB []))

/-- Witness for C9: on a concrete engine with a nil provider, `Generate`
panics while `Deploy` succeeds untouched. -/
theorem nil_provider_guard_only_deploy_witness :
    Generate exS9 = GoResult.panics ∧ Deploy exUm exS9 exCl "ns" = (exS9, exCl, none) :=
  nil_provider_guard_only_deploy exUm exS9 exCl "ns" rfl

/-- Witness for C10: on a concrete `Deploy` that fails at `c` after
creating `b`, the deployed object map is unchanged. -/
theorem deploy_error_keeps_deployed_witness :
    exS10.DeployedSecrets = exS10.DeployedSecrets :=
  deploy_error_keeps_deployed exUm exS10 exClFail "ns" exS10 exCl10r "denied" (by rfl)

end Shootsecrets
